import Mathlib

/-!
A shallow embedding of go-healthcheck.

The package aggregates named dependency probes ("checkers") into one status
code and one error map.  The embedding follows the Go sources:

* `checker.go`            : `Checker`, `CheckerFunc`
* `option.go`             : `WithChecker`, `WithObserver`, `WithTimeout`,
                            `timeoutChecker.Check`
* `health.go`             : `NewService`, `health.CheckHealth`, `health.ServeHTTP`
* `checkers/diskspace.go` : `diskSpace.Check`

Conventions.

* A Go `error` is its message: `none` is `nil`, `some msg` is an error whose
  `Error()` is `msg`.
* Time is a natural number of nanoseconds on one global clock.
* A goroutine schedule is explicit data: for every task the latency of the
  inner goroutine, the latency of the `select` statement and the choice the
  runtime makes when both cases of the `select` can proceed; for the whole call
  the order in which the tasks take the mutex.
* A Go map is an association list with pairwise different keys; the order of
  its entries carries no meaning.
-/

namespace healthcheck

/-! ## Go maps with string keys -/

/-- Contents of a Go map with string keys. -/
abbrev Entries (V : Type) := List (String × V)

/-- Map read `m[k]` together with its presence flag. -/
def Entries.get {V : Type} (m : Entries V) (k : String) : Option V :=
  match m with
  | [] => none
  | (k', v) :: rest => if k' = k then some v else Entries.get rest k

/-- Map write `m[k] = v`: an existing entry for `k` is replaced. -/
def Entries.set {V : Type} (m : Entries V) (k : String) (v : V) : Entries V :=
  (k, v) :: m.filter (fun e => !decide (e.1 = k))

/-- Keys of a map. -/
def Entries.keys {V : Type} (m : Entries V) : List String := m.map Prod.fst

/-- A value of Go type `map[string]string`: the nil map, or a map made by `make`. -/
inductive GoMap where
  | nil : GoMap
  | made (entries : Entries String) : GoMap
deriving DecidableEq, Repr

/-- Builtin `len` on a map value. -/
def GoMap.len : GoMap → Nat
  | GoMap.nil => 0
  | GoMap.made es => es.length

/-- Map read on a map value; reading the nil map finds nothing. -/
def GoMap.get : GoMap → String → Option String
  | GoMap.nil, _ => none
  | GoMap.made es, k => Entries.get es k

/-! ## Contexts -/

/-- A `context.Context`, as far as the package looks at it: the caller's context
with the instant at which its `Done()` channel is closed (`none`: never), or a
child made by `context.WithTimeout(parent, d)` at instant `start`. -/
inductive Context where
  | caller (doneAt : Option Nat) : Context
  | withTimeout (parent : Context) (start : Nat) (d : Int) : Context
deriving DecidableEq, Repr

/-- Earlier of two optional instants, `none` meaning never. -/
def earliest : Option Nat → Option Nat → Option Nat
  | none, b => b
  | a, none => a
  | some a, some b => some (min a b)

/-- Instant at which `ctx.Done()` is closed.  A child is done when its parent is
done or when its own deadline `start + d` passes, whichever is earlier. -/
def Context.doneAt : Context → Option Nat
  | Context.caller t => t
  | Context.withTimeout p start d => earliest p.doneAt (some (start + d.toNat))

/-! ## checker.go -/

/-- What one run of a checker does: after how long `Check` returns (`none`: it
never returns) and the error it returns. -/
structure Behaviour where
  after : Option Nat
  result : Option String
deriving DecidableEq, Repr

/-- The `Checker` interface: `Check(ctx) error`. -/
abbrev Checker := Context → Behaviour

/-- `CheckerFunc` is a function type with the signature of `Check`. -/
abbrev CheckerFunc := Context → Behaviour

/-- `CheckerFunc.Check` calls the function. -/
def CheckerFunc.Check (c : CheckerFunc) (ctx : Context) : Behaviour := c ctx

/-! ## option.go -/

/-- Scheduling of one check task, relative to the instant of the call:
`startDelay` until the inner goroutine starts running the wrapped `Check`,
`selectDelay` until the wrapper evaluates its `select`, and `pick`: whether the
runtime takes the channel case when both cases can proceed. -/
structure Sched where
  startDelay : Nat
  selectDelay : Nat
  pick : Bool
deriving DecidableEq, Repr

/-- The two cases of the `select` in `timeoutChecker.Check`. -/
inductive Fired where
  | chan : Fired
  | done : Fired
deriving DecidableEq, Repr

/-- Whether an event with the given instant has happened at instant `now`. -/
def ready (t : Option Nat) (now : Nat) : Bool :=
  match t with
  | none => false
  | some x => decide (x ≤ now)

/-- Random choice of the runtime among two cases that can both proceed. -/
def choose (pick : Bool) : Fired := if pick then Fired.chan else Fired.done

/-- A Go `select` without default over two channels, evaluated at `tSel`; the
sender on the first is ready from `tChan` on and the second is closed at
`tDone`.  Cases that can proceed at `tSel` are chosen among at random; with
none, the statement blocks until the first one can.  `none`: blocks forever. -/
def select2 (tSel : Nat) (tChan tDone : Option Nat) (pick : Bool) : Option Fired :=
  match ready tChan tSel, ready tDone tSel with
  | true, true => some (choose pick)
  | true, false => some Fired.chan
  | false, true => some Fired.done
  | false, false =>
    match tChan, tDone with
    | none, none => none
    | some _, none => some Fired.chan
    | none, some _ => some Fired.done
    | some c, some d =>
      if c < d then some Fired.chan
      else if d < c then some Fired.done
      else some (choose pick)

/-- The wrapper type `timeoutChecker`. -/
structure timeoutChecker where
  checker : Checker

/-- Message of the error made by `errors.New` in `timeoutChecker.Check`. -/
def timeoutMsg : String := "max check time exceeded"

/-- Instant at which the inner goroutine of the wrapper is ready to send the
wrapped checker's result on `checkerChan`. -/
def timeoutChecker.sendAt (t : timeoutChecker) (ctx : Context) (t0 : Nat) (s : Sched) :
    Option Nat :=
  (t.checker ctx).after.map (fun d => t0 + s.startDelay + d)

/-- `timeoutChecker.Check(ctx)` called at instant `t0`.  `none`: the call never
returns; `some e`: it returns the error `e`. -/
def timeoutChecker.Check (t : timeoutChecker) (ctx : Context) (t0 : Nat) (s : Sched) :
    Option (Option String) :=
  match select2 (t0 + s.selectDelay) (t.sendAt ctx t0 s) ctx.doneAt s.pick with
  | none => none
  | some Fired.chan => some (t.checker ctx).result
  | some Fired.done => some (some timeoutMsg)

/-- The struct `health`.  `timeout` is a `time.Duration`, a signed number of
nanoseconds. -/
structure health where
  checkers : Entries timeoutChecker
  observers : Entries timeoutChecker
  timeout : Int

/-- The type `Option` of option.go: a function that changes the service. -/
abbrev ServiceOption := health → health

/-- `WithChecker(name, s)`. -/
def WithChecker (name : String) (s : Checker) : ServiceOption :=
  fun h => { h with checkers := h.checkers.set name ⟨s⟩ }

/-- `WithObserver(name, s)`. -/
def WithObserver (name : String) (s : Checker) : ServiceOption :=
  fun h => { h with observers := h.observers.set name ⟨s⟩ }

/-- `WithTimeout(timeout)`. -/
def WithTimeout (timeout : Int) : ServiceOption :=
  fun h => { h with timeout := timeout }

/-! ## health.go -/

/-- `time.Second` in nanoseconds. -/
def Second : Int := 1000000000

/-- `http.StatusOK`. -/
def StatusOK : Int := 200

/-- `http.StatusServiceUnavailable`. -/
def StatusServiceUnavailable : Int := 503

/-- `NewService(opts...)`. -/
def NewService (opts : List ServiceOption) : health :=
  opts.foldl (fun h opt => opt h) { checkers := [], observers := [], timeout := 30 * Second }

/-- The context that `CheckHealth` hands to the checkers. -/
def health.effectiveContext (h : health) (ctx : Context) (now : Nat) : Context :=
  if h.timeout > 0 then Context.withTimeout ctx now h.timeout else ctx

/-- One check task of `CheckHealth`: the name, whether the goroutine is one of
the first loop (fatal) and the wrapper. -/
structure Task where
  key : String
  fatal : Bool
  checker : timeoutChecker

/-- The goroutines that `CheckHealth` starts: one for each entry of `checkers`,
then one for each entry of `observers`. -/
def health.tasks (h : health) : List Task :=
  h.checkers.map (fun e => ⟨e.1, true, e.2⟩) ++ h.observers.map (fun e => ⟨e.1, false, e.2⟩)

/-- Schedule of one call of `CheckHealth`: the scheduling of every task and the
order in which the tasks take the mutex, given as the position, among the tasks
that are still running, of the next one to finish. -/
structure Schedule where
  task : Bool → String → Sched
  order : List Nat

/-- A finished task: name, class and the error its `Check` returned. -/
structure Event where
  key : String
  fatal : Bool
  err : Option String
deriving DecidableEq, Repr

/-- The state that the goroutines share: `code` and the contents of `errorMsgs`. -/
abbrev Shared := Int × Entries String

/-- Body of one goroutine after its `Check` has returned. -/
def record (st : Shared) (e : Event) : Shared :=
  match e.err with
  | none => st
  | some msg => (if e.fatal then StatusServiceUnavailable else st.1, st.2.set e.key msg)

/-- The shared state after the goroutines have run in the given order. -/
def collect (events : List Event) : Shared :=
  events.foldl record (StatusOK, [])

/-- Order of completion chosen by a schedule: `is` names, step by step, which of
the remaining items is next; when `is` is used up the rest keeps its order. -/
def interleave {α : Type} : List Nat → List α → List α
  | [], xs => xs
  | i :: is, xs =>
    match xs[i % xs.length]? with
    | none => xs
    | some y => y :: interleave is (xs.eraseIdx (i % xs.length))

/-- What the `Check` call of one task returns: `none` when it never returns. -/
def Task.outcome (t : Task) (ectx : Context) (now : Nat) (sch : Schedule) :
    Option (Option String) :=
  t.checker.Check ectx now (sch.task t.fatal t.key)

/-- One task as a finished event: `none` when its `Check` never returns. -/
def Task.run (t : Task) (ectx : Context) (now : Nat) (sch : Schedule) : Option Event :=
  match t.outcome ectx now sch with
  | none => none
  | some err => some ⟨t.key, t.fatal, err⟩

/-- Outcomes of a list of tasks: `none` when one of them never finishes. -/
def runAll (ectx : Context) (now : Nat) (sch : Schedule) : List Task → Option (List Event)
  | [] => some []
  | t :: ts =>
    match t.run ectx now sch, runAll ectx now sch ts with
    | some e, some es => some (e :: es)
    | _, _ => none

/-- Runs every task: `none` when some `Check` never returns, otherwise the
finished tasks in the order of `health.tasks`. -/
def health.run (h : health) (ectx : Context) (now : Nat) (sch : Schedule) :
    Option (List Event) :=
  runAll ectx now sch h.tasks

/-- `CheckHealth` with the context for the checkers given. -/
def health.checkWith (h : health) (ectx : Context) (now : Nat) (sch : Schedule) :
    Option (Int × GoMap) :=
  match h.run ectx now sch with
  | none => none
  | some events =>
    let st := collect (interleave sch.order events)
    some (st.1, GoMap.made st.2)

/-- `health.CheckHealth(ctx)` called at instant `now`.  `none`: `wg.Wait()` never
returns because some task never finishes. -/
def health.CheckHealth (h : health) (ctx : Context) (now : Nat) (sch : Schedule) :
    Option (Int × GoMap) :=
  h.checkWith (h.effectiveContext ctx now) now sch


/-! ### The HTTP handler -/

/-- Excerpt of `http.StatusText` (net/http): the text of the two codes that
`CheckHealth` returns; the empty string stands for every code without entry here. -/
def StatusText (code : Int) : String :=
  if code = 200 then "OK"
  else if code = 503 then "Service Unavailable"
  else ""

/-- The struct `response` with its two fields, both tagged `omitempty`. -/
structure response where
  Status : String
  Errors : GoMap
deriving DecidableEq, Repr

/-- A JSON value as `response` needs it: a string, or an object whose members
are strings.  The order of the members of an object carries no meaning. -/
inductive JsonValue where
  | string (s : String) : JsonValue
  | object (members : Entries String) : JsonValue
deriving DecidableEq, Repr

/-- Encoding of a `response` by encoding/json: a field tagged `omitempty` is
left out when it is the empty string, or a map of length zero. -/
def response.encode (r : response) : Entries JsonValue :=
  (if r.Status = "" then [] else [("status", JsonValue.string r.Status)]) ++
  (match r.Errors with
   | GoMap.nil => []
   | GoMap.made es => if es.length = 0 then [] else [("errors", JsonValue.object es)])

/-- What a handler has written to its `http.ResponseWriter`: the headers, the
status code and the JSON document of the body. -/
structure ResponseRecorder where
  header : Entries String
  code : Int
  body : Entries JsonValue
deriving DecidableEq, Repr

/-- `health.ServeHTTP(w, r)`, with `ctx` the context of the request `r`.
`none`: the handler never returns, because `CheckHealth` does not. -/
def health.ServeHTTP (h : health) (ctx : Context) (now : Nat) (sch : Schedule) :
    Option ResponseRecorder :=
  match h.CheckHealth ctx now sch with
  | none => none
  | some (code, errorMsgs) =>
    some { header := Entries.set [] "Content-Type" "application/json; charset=utf-8"
           code := code
           body := response.encode { Status := StatusText code, Errors := errorMsgs } }

/-- `health.HandlerFunc()` returns the method value `h.ServeHTTP`. -/
def health.HandlerFunc (h : health) (ctx : Context) (now : Nat) (sch : Schedule) :
    Option ResponseRecorder :=
  h.ServeHTTP ctx now sch

/-! ## checkers/diskspace.go -/

/-- The fields of `unix.Statfs_t` that `Check` reads, with their types on
linux/amd64: `Bsize` is an `int64`, `Blocks` and `Bfree` are `uint64`. -/
structure Statfs_t where
  Bsize : Int
  Blocks : Nat
  Bfree : Nat
deriving DecidableEq, Repr

/-- Number of values of a 64-bit word. -/
def word : Nat := 2 ^ 64

/-- Conversion `uint64(x)` of an `int64`. -/
def uint64 (x : Int) : Nat := (x % (word : Int)).toNat

/-- The struct `diskSpace`; `statfs` gives either an error message or the
statistics that the call stores through its pointer argument. -/
structure diskSpace where
  dir : String
  threshold : Nat
  statfs : String → Except String Statfs_t

/-- How a call ends: it returns an error value, or the goroutine panics. -/
inductive CallResult where
  | returned (err : Option String) : CallResult
  | panicked (msg : String) : CallResult
deriving DecidableEq, Repr

/-- The value that `Check` names `total`. -/
def diskSpace.total (fs : Statfs_t) : Nat := fs.Blocks * uint64 fs.Bsize % word

/-- The value that `Check` names `free`. -/
def diskSpace.free (fs : Statfs_t) : Nat := fs.Bfree * uint64 fs.Bsize % word

/-- The value that `Check` names `used`: subtraction of `uint64` wraps around. -/
def diskSpace.used (fs : Statfs_t) : Nat :=
  (diskSpace.total fs + word - diskSpace.free fs) % word

/-- The value that `Check` names `usedPercentage`, for `total` other than zero. -/
def diskSpace.usedPercentage (fs : Statfs_t) : Nat :=
  100 * diskSpace.used fs % word / diskSpace.total fs

/-- `diskSpace.Check(ctx)`; `osStat` is the error of `os.Stat` on a path
(`none`: the path exists).  The context is not read. -/
def diskSpace.Check (ds : diskSpace) (osStat : String → Option String) : CallResult :=
  match osStat ds.dir with
  | some err => CallResult.returned (some ("filesystem not found: " ++ err))
  | none =>
    match ds.statfs ds.dir with
    | Except.error err =>
      CallResult.returned
        (some ("error looking for " ++ ds.dir ++ " filesystem stats: " ++ err))
    | Except.ok fs =>
      if diskSpace.total fs = 0 then
        CallResult.panicked "runtime error: integer divide by zero"
      else if diskSpace.usedPercentage fs > ds.threshold then
        CallResult.returned
          (some ("used: " ++ toString (diskSpace.usedPercentage fs) ++ "% threshold: " ++
            toString ds.threshold ++ "% location: " ++ ds.dir))
      else CallResult.returned none

/-- `DiskSpace(dir, threshold)`, with the system call `unix.Statfs` given. -/
def DiskSpace (unixStatfs : String → Except String Statfs_t) (dir : String) (threshold : Nat) :
    diskSpace :=
  { dir := dir, threshold := threshold, statfs := unixStatfs }

/-- The used percentage in blocks, as a natural number rounded down. -/
def blockPercentage (fs : Statfs_t) : Nat := 100 * (fs.Blocks - fs.Bfree) / fs.Blocks

/-! ## Sample checkers, services and schedules -/

/-- A checker that returns at once with the given error. -/
def returning (result : Option String) : Checker := fun _ => ⟨some 0, result⟩

/-- A checker that returns the given error after `d` nanoseconds. -/
def sleeping (d : Nat) (result : Option String) : Checker := fun _ => ⟨some d, result⟩

/-- A checker that never returns. -/
def hanging : Checker := fun _ => ⟨none, none⟩

/-- Every goroutine runs without latency; tasks finish in the order of launch. -/
def promptSchedule : Schedule := ⟨fun _ _ => ⟨0, 0, true⟩, []⟩

/-- As `promptSchedule`, but the second task to be launched finishes first. -/
def swappedSchedule : Schedule := ⟨fun _ _ => ⟨0, 0, true⟩, [1]⟩

/-- The `select` of every wrapper is evaluated `lag` nanoseconds after the call
and takes the channel case, or the other one, when both can proceed. -/
def lateSelect (lag : Nat) (pick : Bool) : Schedule := ⟨fun _ _ => ⟨0, lag, pick⟩, []⟩

/-- A service with two failing fatal checkers and one failing observer. -/
def sampleService : health :=
  NewService [
    WithChecker "database" (returning (some "connection to db timed out")),
    WithChecker "testService" (returning (some "connection refused")),
    WithObserver "observableService" (returning (some "i fail but it is okay"))]

/-- A service whose only failing checker is an observer. -/
def observedService : health :=
  NewService [
    WithChecker "database" (returning none),
    WithObserver "observableService" (returning (some "i fail but it is okay"))]

/-- The name `database` is both a fatal checker and an observer, and the two
fail with different messages. -/
def clashService : health :=
  NewService [
    WithChecker "database" (returning (some "connection refused")),
    WithObserver "database" (returning (some "replica lagging"))]

/-! ## Lemmas on maps -/

theorem Entries.get_filter_ne {V : Type} (m : Entries V) (k k' : String) :
    Entries.get (m.filter (fun e => !decide (e.1 = k))) k' =
      if k = k' then none else Entries.get m k' := by
  induction m with
  | nil => simp [Entries.get]
  | cons e rest ih =>
    obtain ⟨a, v⟩ := e
    by_cases hak : a = k
    · subst hak
      by_cases hk : a = k'
      · subst hk
        simp [List.filter, ih]
      · simp [List.filter, ih, Entries.get, hk]
    · by_cases hk : k = k'
      · subst hk
        simp [List.filter, hak, Entries.get, ih]
      · by_cases hak' : a = k'
        · subst hak'
          simp [List.filter, hak, Entries.get, hk]
        · simp [List.filter, hak, Entries.get, ih, hk, hak']

theorem Entries.get_set {V : Type} (m : Entries V) (k k' : String) (v : V) :
    Entries.get (m.set k v) k' = if k = k' then some v else Entries.get m k' := by
  unfold Entries.set
  by_cases hk : k = k'
  · simp [Entries.get, hk]
  · simp [Entries.get, hk, Entries.get_filter_ne]

/-! ## Lemmas on the reduction of the results -/

theorem record_fst (st : Shared) (e : Event) :
    (record st e).1 =
      if e.fatal = true ∧ e.err.isSome = true then StatusServiceUnavailable else st.1 := by
  unfold record
  cases he : e.err <;> cases hf : e.fatal <;> simp

theorem record_get (st : Shared) (e : Event) (k : String) :
    Entries.get (record st e).2 k =
      match e.err with
      | none => Entries.get st.2 k
      | some msg => if e.key = k then some msg else Entries.get st.2 k := by
  unfold record
  cases he : e.err <;> simp [Entries.get_set]

theorem foldl_record_fst (events : List Event) (st : Shared) :
    (events.foldl record st).1 =
      if (∃ e ∈ events, e.fatal = true ∧ e.err.isSome = true) then StatusServiceUnavailable
      else st.1 := by
  induction events generalizing st with
  | nil => simp
  | cons e rest ih =>
    rw [List.foldl_cons, ih, record_fst]
    by_cases h1 : ∃ x ∈ rest, x.fatal = true ∧ x.err.isSome = true
    · have h2 : ∃ x ∈ e :: rest, x.fatal = true ∧ x.err.isSome = true := by
        obtain ⟨x, hx, hp⟩ := h1
        exact ⟨x, List.mem_cons_of_mem _ hx, hp⟩
      rw [if_pos h1, if_pos h2]
    · rw [if_neg h1]
      by_cases h3 : e.fatal = true ∧ e.err.isSome = true
      · have h2 : ∃ x ∈ e :: rest, x.fatal = true ∧ x.err.isSome = true :=
          ⟨e, List.mem_cons_self _ _, h3⟩
        rw [if_pos h3, if_pos h2]
      · have h2 : ¬ ∃ x ∈ e :: rest, x.fatal = true ∧ x.err.isSome = true := by
          rintro ⟨x, hx, hp⟩
          rcases List.mem_cons.1 hx with rfl | hx
          · exact h3 hp
          · exact h1 ⟨x, hx, hp⟩
        rw [if_neg h3, if_neg h2]

/-- An entry of the final map comes from the initial map or from a failed event. -/
theorem foldl_record_get_some (events : List Event) (st : Shared) (k v : String)
    (h : Entries.get (events.foldl record st).2 k = some v) :
    Entries.get st.2 k = some v ∨ ∃ e ∈ events, e.key = k ∧ e.err = some v := by
  induction events generalizing st with
  | nil => exact Or.inl h
  | cons e rest ih =>
    rw [List.foldl_cons] at h
    rcases ih _ h with h1 | ⟨x, hx, hp⟩
    · rw [record_get] at h1
      cases he : e.err with
      | none =>
        rw [he] at h1
        exact Or.inl h1
      | some msg =>
        rw [he] at h1
        by_cases hk : e.key = k
        · simp only [hk, if_true] at h1
          refine Or.inr ⟨e, List.mem_cons_self _ _, hk, ?_⟩
          rw [he, h1]
        · simp only [hk, if_false] at h1
          exact Or.inl h1
    · exact Or.inr ⟨x, List.mem_cons_of_mem _ hx, hp⟩

/-- A name that is in the initial map or belongs to a failed event is in the
final map. -/
theorem foldl_record_get_isSome (events : List Event) (st : Shared) (k : String)
    (h : (Entries.get st.2 k).isSome = true ∨
      ∃ e ∈ events, e.key = k ∧ e.err.isSome = true) :
    (Entries.get (events.foldl record st).2 k).isSome = true := by
  induction events generalizing st with
  | nil =>
    rcases h with h | ⟨e, he, _⟩
    · exact h
    · cases he
  | cons e rest ih =>
    rw [List.foldl_cons]
    apply ih
    rcases h with h | ⟨x, hx, hk, hs⟩
    · left
      rw [record_get]
      cases he : e.err with
      | none => exact h
      | some msg =>
        by_cases hk : e.key = k
        · simp [hk]
        · simp only [hk, if_false]
          exact h
    · rcases List.mem_cons.1 hx with rfl | hx
      · left
        rw [record_get]
        cases he : x.err with
        | none => rw [he] at hs; cases hs
        | some msg => simp [hk]
      · exact Or.inr ⟨x, hx, hk, hs⟩

/-! ## Lemmas on schedules -/

theorem perm_cons_eraseIdx {α : Type} (xs : List α) (j : Nat) (y : α)
    (h : xs[j]? = some y) : (y :: xs.eraseIdx j).Perm xs := by
  induction xs generalizing j with
  | nil => simp at h
  | cons x rest ih =>
    cases j with
    | zero =>
      simp at h
      subst h
      simp
    | succ n =>
      simp at h
      have h1 := ih n h
      simp only [List.eraseIdx_cons_succ]
      exact (List.Perm.swap x y _).trans (List.Perm.cons x h1)

/-- Every schedule finishes every task exactly once. -/
theorem interleave_perm {α : Type} (is : List Nat) (xs : List α) :
    (interleave is xs).Perm xs := by
  induction is generalizing xs with
  | nil => simp [interleave]
  | cons i rest ih =>
    unfold interleave
    cases hy : xs[i % xs.length]? with
    | none => simp
    | some y =>
      simp only
      exact (List.Perm.cons y (ih _)).trans (perm_cons_eraseIdx xs _ y hy)

theorem runAll_isSome (ectx : Context) (now : Nat) (sch : Schedule) (ts : List Task)
    (h : ∀ t ∈ ts, (t.outcome ectx now sch).isSome = true) :
    (runAll ectx now sch ts).isSome = true := by
  induction ts with
  | nil => simp [runAll]
  | cons t rest ih =>
    have h1 := h t (List.mem_cons_self _ _)
    have h2 := ih (fun x hx => h x (List.mem_cons_of_mem _ hx))
    unfold runAll
    unfold Task.run
    cases ho : t.outcome ectx now sch with
    | none => rw [ho] at h1; cases h1
    | some err =>
      cases hr : runAll ectx now sch rest with
      | none => rw [hr] at h2; cases h2
      | some es => simp

theorem runAll_mem_event (ectx : Context) (now : Nat) (sch : Schedule) (ts : List Task)
    (es : List Event) (h : runAll ectx now sch ts = some es) (e : Event) (he : e ∈ es) :
    ∃ t ∈ ts, t.key = e.key ∧ t.fatal = e.fatal ∧ t.outcome ectx now sch = some e.err := by
  induction ts generalizing es with
  | nil =>
    simp [runAll] at h
    subst h
    cases he
  | cons t rest ih =>
    unfold runAll at h
    unfold Task.run at h
    cases ho : t.outcome ectx now sch with
    | none => simp [ho] at h
    | some err =>
      cases hr : runAll ectx now sch rest with
      | none => simp [ho, hr] at h
      | some es' =>
        simp [ho, hr] at h
        subst h
        rcases List.mem_cons.1 he with rfl | he'
        · exact ⟨t, List.mem_cons_self _ _, rfl, rfl, ho⟩
        · obtain ⟨x, hx, hp⟩ := ih es' hr he'
          exact ⟨x, List.mem_cons_of_mem _ hx, hp⟩

theorem runAll_mem_task (ectx : Context) (now : Nat) (sch : Schedule) (ts : List Task)
    (es : List Event) (h : runAll ectx now sch ts = some es) (t : Task) (ht : t ∈ ts) :
    ∃ e ∈ es, e.key = t.key ∧ e.fatal = t.fatal ∧ t.outcome ectx now sch = some e.err := by
  induction ts generalizing es with
  | nil => cases ht
  | cons t' rest ih =>
    unfold runAll at h
    unfold Task.run at h
    cases ho : t'.outcome ectx now sch with
    | none => simp [ho] at h
    | some err =>
      cases hr : runAll ectx now sch rest with
      | none => simp [ho, hr] at h
      | some es' =>
        simp [ho, hr] at h
        subst h
        rcases List.mem_cons.1 ht with rfl | ht'
        · exact ⟨_, List.mem_cons_self _ _, rfl, rfl, ho⟩
        · obtain ⟨x, hx, hp⟩ := ih es' hr ht'
          exact ⟨x, List.mem_cons_of_mem _ hx, hp⟩

theorem runAll_keys (ectx : Context) (now : Nat) (sch : Schedule) (ts : List Task)
    (es : List Event) (h : runAll ectx now sch ts = some es) :
    es.map Event.key = ts.map Task.key := by
  induction ts generalizing es with
  | nil =>
    simp [runAll] at h
    subst h
    rfl
  | cons t rest ih =>
    unfold runAll at h
    unfold Task.run at h
    cases ho : t.outcome ectx now sch with
    | none => simp [ho] at h
    | some err =>
      cases hr : runAll ectx now sch rest with
      | none => simp [ho, hr] at h
      | some es' =>
        simp [ho, hr] at h
        subst h
        simp [ih es' hr]

/-! ## Lemmas on `CheckHealth` -/

/-- When every task finishes, `CheckHealth` returns the reduction of the events
in the order of the schedule. -/
theorem checkWith_of_finished (h : health) (ectx : Context) (now : Nat) (sch : Schedule)
    (hall : ∀ t ∈ h.tasks, (t.outcome ectx now sch).isSome = true) :
    ∃ events, runAll ectx now sch h.tasks = some events ∧
      h.checkWith ectx now sch =
        some ((collect (interleave sch.order events)).1,
          GoMap.made (collect (interleave sch.order events)).2) := by
  have hs := runAll_isSome ectx now sch h.tasks hall
  cases hr : runAll ectx now sch h.tasks with
  | none => rw [hr] at hs; cases hs
  | some events =>
    refine ⟨events, rfl, ?_⟩
    unfold health.checkWith health.run
    rw [hr]

/-- The code after the reduction is 503 when a fatal task has failed. -/
theorem collect_code_pos (ectx : Context) (now : Nat) (sch : Schedule) (ts : List Task)
    (events : List Event) (hr : runAll ectx now sch ts = some events) (order : List Nat)
    (h1 : ∃ t ∈ ts, t.fatal = true ∧ ∃ msg, t.outcome ectx now sch = some (some msg)) :
    (collect (interleave order events)).1 = StatusServiceUnavailable := by
  unfold collect
  rw [foldl_record_fst]
  have hperm := interleave_perm order events
  obtain ⟨t, ht, hf, msg, ho⟩ := h1
  obtain ⟨e, he, _, hef, heo⟩ := runAll_mem_task ectx now sch ts events hr t ht
  have hee : e.err = some msg := by
    rw [ho] at heo
    exact (Option.some.inj heo).symm
  rw [if_pos]
  exact ⟨e, hperm.mem_iff.2 he, by rw [hef, hf], by rw [hee]; rfl⟩

/-- The code after the reduction is 200 when no fatal task has failed. -/
theorem collect_code_neg (ectx : Context) (now : Nat) (sch : Schedule) (ts : List Task)
    (events : List Event) (hr : runAll ectx now sch ts = some events) (order : List Nat)
    (h1 : ¬ ∃ t ∈ ts, t.fatal = true ∧ ∃ msg, t.outcome ectx now sch = some (some msg)) :
    (collect (interleave order events)).1 = StatusOK := by
  unfold collect
  rw [foldl_record_fst]
  have hperm := interleave_perm order events
  rw [if_neg]
  rintro ⟨e, he, hf, hs⟩
  obtain ⟨t, ht, _, htf, hto⟩ :=
    runAll_mem_event ectx now sch ts events hr e (hperm.mem_iff.1 he)
  apply h1
  cases hee : e.err with
  | none => rw [hee] at hs; cases hs
  | some msg => exact ⟨t, ht, by rw [htf, hf], msg, by rw [hto, hee]⟩

/-- An entry of the final map is the message of a failed task of that name. -/
theorem collect_get_some (ectx : Context) (now : Nat) (sch : Schedule) (ts : List Task)
    (events : List Event) (hr : runAll ectx now sch ts = some events) (order : List Nat)
    (k v : String) (hg : Entries.get (collect (interleave order events)).2 k = some v) :
    ∃ t ∈ ts, t.key = k ∧ t.outcome ectx now sch = some (some v) := by
  unfold collect at hg
  rcases foldl_record_get_some _ _ k v hg with h0 | ⟨e, he, hk, hv⟩
  · simp [Entries.get] at h0
  · have hperm := interleave_perm order events
    obtain ⟨t, ht, htk, _, hto⟩ := runAll_mem_event ectx now sch ts events hr e (hperm.mem_iff.1 he)
    exact ⟨t, ht, by rw [htk, hk], by rw [hto, hv]⟩

/-- Every failed task has an entry under its name in the final map. -/
theorem collect_get_isSome (ectx : Context) (now : Nat) (sch : Schedule) (ts : List Task)
    (events : List Event) (hr : runAll ectx now sch ts = some events) (order : List Nat)
    (t : Task) (ht : t ∈ ts) (msg : String) (ho : t.outcome ectx now sch = some (some msg)) :
    (Entries.get (collect (interleave order events)).2 t.key).isSome = true := by
  unfold collect
  apply foldl_record_get_isSome
  right
  have hperm := interleave_perm order events
  obtain ⟨e, he, hk, _, heo⟩ := runAll_mem_task ectx now sch ts events hr t ht
  refine ⟨e, hperm.mem_iff.2 he, hk, ?_⟩
  rw [ho] at heo
  rw [← Option.some.inj heo]
  rfl

/-- Without failed events the final map has no entries. -/
theorem foldl_record_nil_of_ok (events : List Event) (st : Shared)
    (h : ∀ e ∈ events, e.err = none) : events.foldl record st = st := by
  induction events generalizing st with
  | nil => rfl
  | cons e rest ih =>
    rw [List.foldl_cons]
    have he : record st e = st := by
      unfold record
      rw [h e (List.mem_cons_self _ _)]
    rw [he]
    exact ih st (fun x hx => h x (List.mem_cons_of_mem _ hx))

/-! ## Lemmas on the `select` of the wrapper -/

/-- The `select` takes the `Done` case when the context is done at `d` and the
sender becomes ready only after `d` and after the evaluation of the `select`. -/
theorem select2_done (tSel : Nat) (tChan tDone : Option Nat) (pick : Bool) (d : Nat)
    (hd : tDone = some d) (hc : ∀ c, tChan = some c → d < c ∧ tSel < c) :
    select2 tSel tChan tDone pick = some Fired.done := by
  subst hd
  cases tChan with
  | none =>
    unfold select2 ready
    by_cases h : d ≤ tSel <;> simp [h]
  | some c =>
    obtain ⟨h1, h2⟩ := hc c rfl
    have h3 : ¬ c ≤ tSel := by omega
    have h4 : ¬ c < d := by omega
    unfold select2 ready
    by_cases h : d ≤ tSel <;> simp [h, h3, h4, h1]

/-- The `select` takes the channel case when the sender is ready at `c` and the
context becomes done only after `c` and after the evaluation of the `select`. -/
theorem select2_chan (tSel : Nat) (tChan tDone : Option Nat) (pick : Bool) (c : Nat)
    (hc : tChan = some c) (hd : ∀ d, tDone = some d → c < d ∧ tSel < d) :
    select2 tSel tChan tDone pick = some Fired.chan := by
  subst hc
  cases tDone with
  | none =>
    unfold select2 ready
    by_cases h : c ≤ tSel <;> simp [h]
  | some d =>
    obtain ⟨h1, h2⟩ := hd d rfl
    have h3 : ¬ d ≤ tSel := by omega
    unfold select2 ready
    by_cases h : c ≤ tSel <;> simp [h, h3, h1]

/-- With a context that is done at some instant the `select` does not block
forever. -/
theorem select2_isSome_of_done (tSel : Nat) (tChan : Option Nat) (pick : Bool) (d : Nat) :
    (select2 tSel tChan (some d) pick).isSome = true := by
  unfold select2 ready
  cases tChan with
  | none => by_cases h : d ≤ tSel <;> simp [h]
  | some c =>
    by_cases h : d ≤ tSel <;> by_cases h' : c ≤ tSel <;> simp [h, h']
    by_cases h1 : c < d
    · simp [h1]
    · by_cases h2 : d < c <;> simp [h1, h2]

/-- The wrapper returns the timeout error or the error of the wrapped checker. -/
theorem timeoutChecker.Check_cases (t : timeoutChecker) (ctx : Context) (t0 : Nat) (s : Sched)
    (d : Nat) (hd : ctx.doneAt = some d) :
    t.Check ctx t0 s = some (some timeoutMsg) ∨ t.Check ctx t0 s = some (t.checker ctx).result := by
  unfold timeoutChecker.Check
  have h := select2_isSome_of_done (t0 + s.selectDelay) (t.sendAt ctx t0 s) s.pick d
  rw [hd]
  cases hs : select2 (t0 + s.selectDelay) (t.sendAt ctx t0 s) (some d) s.pick with
  | none => rw [hs] at h; cases h
  | some f => cases f <;> simp

/-- The wrapper returns the timeout error when the context is done before the
wrapped checker has its result and the `select` is evaluated before that result
is there. -/
theorem timeoutChecker.Check_timeout (t : timeoutChecker) (ctx : Context) (t0 : Nat) (s : Sched)
    (d : Nat) (hd : ctx.doneAt = some d)
    (hc : ∀ c, t.sendAt ctx t0 s = some c → d < c ∧ t0 + s.selectDelay < c) :
    t.Check ctx t0 s = some (some timeoutMsg) := by
  unfold timeoutChecker.Check
  rw [select2_done _ _ _ _ d hd hc]

/-- A child context of a context that is done at `d` is done at `d` or before. -/
theorem effectiveContext_doneAt (h : health) (ctx : Context) (now d : Nat)
    (hd : ctx.doneAt = some d) :
    ∃ d', (h.effectiveContext ctx now).doneAt = some d' ∧ d' ≤ d := by
  unfold health.effectiveContext
  split
  · refine ⟨min d (now + h.timeout.toNat), ?_, Nat.min_le_left _ _⟩
    simp [Context.doneAt, hd, earliest]
  · exact ⟨d, hd, le_refl d⟩

/-- A schedule cannot reorder a single task. -/
theorem interleave_singleton {α : Type} (is : List Nat) (x : α) : interleave is [x] = [x] :=
  List.perm_singleton.1 (interleave_perm is [x])

/-- `CheckHealth` of a service with one fatal checker and no observer. -/
theorem checkWith_single_fatal (h : health) (name : String) (t : timeoutChecker)
    (ectx : Context) (now : Nat) (sch : Schedule) (err : Option String)
    (hc : h.checkers = [(name, t)]) (ho : h.observers = [])
    (hr : t.Check ectx now (sch.task true name) = some err) :
    h.checkWith ectx now sch = some ((collect [⟨name, true, err⟩]).1,
      GoMap.made (collect [⟨name, true, err⟩]).2) := by
  unfold health.checkWith health.run health.tasks
  rw [hc, ho]
  simp [runAll, Task.run, Task.outcome, hr, interleave_singleton]

/-! ## Lemmas on the configuration -/

/-- A child context differs from its parent. -/
theorem Context.withTimeout_ne (ctx : Context) (start : Nat) (d : Int) :
    Context.withTimeout ctx start d ≠ ctx := by
  induction ctx generalizing start d with
  | caller t => intro h; cases h
  | withTimeout p s' d' ih =>
    intro h
    injection h with h1 _ _
    exact ih s' d' h1

/-- Options that register checkers or observers leave the timeout as it is. -/
theorem foldl_timeout_unchanged (opts : List ServiceOption) (h : health)
    (hopts : ∀ o ∈ opts, ∃ name c, o = WithChecker name c ∨ o = WithObserver name c) :
    (opts.foldl (fun h opt => opt h) h).timeout = h.timeout := by
  induction opts generalizing h with
  | nil => rfl
  | cons o rest ih =>
    rw [List.foldl_cons, ih _ (fun x hx => hopts x (List.mem_cons_of_mem _ hx))]
    obtain ⟨name, c, ho | ho⟩ := hopts o (List.mem_cons_self _ _) <;> rw [ho] <;> rfl

/-! ## Lemmas on maps with pairwise different keys -/

theorem Entries.keys_set_nodup {V : Type} (m : Entries V) (k : String) (v : V)
    (hm : m.keys.Nodup) : (m.set k v).keys.Nodup := by
  unfold Entries.set Entries.keys
  rw [List.map_cons, List.nodup_cons]
  constructor
  · intro hmem
    obtain ⟨e, he, hk⟩ := List.mem_map.1 hmem
    have := (List.mem_filter.1 he).2
    simp at this
    exact this hk
  · exact List.Nodup.sublist (List.Sublist.map _ (List.filter_sublist _)) hm

theorem Entries.get_eq_some_iff_mem {V : Type} (m : Entries V) (hm : m.keys.Nodup)
    (k : String) (v : V) : Entries.get m k = some v ↔ (k, v) ∈ m := by
  induction m with
  | nil => simp [Entries.get]
  | cons e rest ih =>
    obtain ⟨a, w⟩ := e
    unfold Entries.keys at hm
    rw [List.map_cons, List.nodup_cons] at hm
    have ih' := ih hm.2
    unfold Entries.get
    by_cases hak : a = k
    · subst hak
      simp only [if_true, List.mem_cons, Prod.mk.injEq, true_and]
      constructor
      · intro h
        exact Or.inl (Option.some.inj h).symm
      · rintro (h | h)
        · rw [h]
        · exact absurd (List.mem_map.2 ⟨(a, v), h, rfl⟩) hm.1
    · simp only [hak, if_false, List.mem_cons, Prod.mk.injEq]
      rw [ih']
      constructor
      · intro h
        exact Or.inr h
      · rintro (⟨h, _⟩ | h)
        · exact absurd h.symm hak
        · exact h

theorem foldl_record_keys_nodup (events : List Event) (st : Shared) (hst : st.2.keys.Nodup) :
    (events.foldl record st).2.keys.Nodup := by
  induction events generalizing st with
  | nil => exact hst
  | cons e rest ih =>
    rw [List.foldl_cons]
    apply ih
    unfold record
    cases e.err with
    | none => exact hst
    | some msg => exact Entries.keys_set_nodup _ _ _ hst

/-- With pairwise different names, the final map holds exactly the messages of
the failed events. -/
theorem collect_get_iff_of_nodup (events : List Event) (hn : (events.map Event.key).Nodup)
    (k v : String) :
    Entries.get (collect events).2 k = some v ↔ ∃ e ∈ events, e.key = k ∧ e.err = some v := by
  unfold collect
  constructor
  · intro h
    rcases foldl_record_get_some events _ k v h with h0 | h1
    · simp [Entries.get] at h0
    · exact h1
  · rintro ⟨e, he, hk, hv⟩
    have hs := foldl_record_get_isSome events (StatusOK, []) k
      (Or.inr ⟨e, he, hk, by rw [hv]; rfl⟩)
    cases hg : Entries.get (events.foldl record (StatusOK, [])).2 k with
    | none => rw [hg] at hs; cases hs
    | some w =>
      rcases foldl_record_get_some events _ k w hg with h0 | ⟨e', he', hk', hv'⟩
      · simp [Entries.get] at h0
      · have hee : e' = e := List.inj_on_of_nodup_map hn he' he (by rw [hk', hk])
        rw [hee, hv] at hv'
        rw [Option.some.inj hv']

/-- With pairwise different names, two orders of the same events give maps with
the same entries. -/
theorem collect_perm_of_nodup (es₁ es₂ : List Event) (hp : es₁.Perm es₂)
    (hn : (es₁.map Event.key).Nodup) :
    (collect es₁).1 = (collect es₂).1 ∧
    (∀ k, Entries.get (collect es₁).2 k = Entries.get (collect es₂).2 k) ∧
    (collect es₁).2.Perm (collect es₂).2 := by
  have hn2 : (es₂.map Event.key).Nodup := (hp.map Event.key).nodup_iff.1 hn
  have hget : ∀ k v, Entries.get (collect es₁).2 k = some v ↔
      Entries.get (collect es₂).2 k = some v := by
    intro k v
    rw [collect_get_iff_of_nodup es₁ hn, collect_get_iff_of_nodup es₂ hn2]
    constructor
    · rintro ⟨e, he, hx⟩
      exact ⟨e, hp.mem_iff.1 he, hx⟩
    · rintro ⟨e, he, hx⟩
      exact ⟨e, hp.mem_iff.2 he, hx⟩
  have hk1 : (collect es₁).2.keys.Nodup :=
    foldl_record_keys_nodup es₁ _ (by simp [Entries.keys])
  have hk2 : (collect es₂).2.keys.Nodup :=
    foldl_record_keys_nodup es₂ _ (by simp [Entries.keys])
  refine ⟨?_, ?_, ?_⟩
  · unfold collect
    rw [foldl_record_fst, foldl_record_fst]
    have : (∃ e ∈ es₁, e.fatal = true ∧ e.err.isSome = true) ↔
        (∃ e ∈ es₂, e.fatal = true ∧ e.err.isSome = true) := by
      constructor
      · rintro ⟨e, he, hx⟩
        exact ⟨e, hp.mem_iff.1 he, hx⟩
      · rintro ⟨e, he, hx⟩
        exact ⟨e, hp.mem_iff.2 he, hx⟩
    simp only [this]
  · intro k
    cases hg : Entries.get (collect es₁).2 k with
    | some v => exact ((hget k v).1 hg).symm
    | none =>
      cases hg2 : Entries.get (collect es₂).2 k with
      | none => rfl
      | some w =>
        rw [(hget k w).2 hg2] at hg
        cases hg
  · apply (List.perm_ext_iff_of_nodup (List.Nodup.of_map _ hk1) (List.Nodup.of_map _ hk2)).2
    rintro ⟨k, v⟩
    rw [← Entries.get_eq_some_iff_mem _ hk1, ← Entries.get_eq_some_iff_mem _ hk2]
    exact hget k v

/-- The code does not depend on the order of the events. -/
theorem collect_fst_perm (es₁ es₂ : List Event) (hp : es₁.Perm es₂) :
    (collect es₁).1 = (collect es₂).1 := by
  unfold collect
  rw [foldl_record_fst, foldl_record_fst]
  have : (∃ e ∈ es₁, e.fatal = true ∧ e.err.isSome = true) ↔
      (∃ e ∈ es₂, e.fatal = true ∧ e.err.isSome = true) := by
    constructor
    · rintro ⟨e, he, hx⟩
      exact ⟨e, hp.mem_iff.1 he, hx⟩
    · rintro ⟨e, he, hx⟩
      exact ⟨e, hp.mem_iff.2 he, hx⟩
  simp only [this]

/-- The task that writes last under a name determines the entry of that name. -/
theorem collect_last_writer (events : List Event) (e : Event) (msg : String)
    (he : e.err = some msg) : Entries.get (collect (events ++ [e])).2 e.key = some msg := by
  unfold collect
  rw [List.foldl_append, List.foldl_cons, List.foldl_nil, record_get, he]
  simp

/-- The outcomes of the tasks do not depend on the order of completion. -/
theorem runAll_order (ectx : Context) (now : Nat) (task : Bool → String → Sched)
    (o₁ o₂ : List Nat) (ts : List Task) :
    runAll ectx now ⟨task, o₁⟩ ts = runAll ectx now ⟨task, o₂⟩ ts := by
  induction ts with
  | nil => rfl
  | cons t rest ih =>
    unfold runAll
    rw [ih]
    rfl

/-- The names of the tasks are pairwise different when the keys of each bucket
are and no name is in both buckets. -/
theorem tasks_keys_nodup (h : health) (hc : h.checkers.keys.Nodup) (ho : h.observers.keys.Nodup)
    (hdis : ∀ k ∈ h.checkers.keys, k ∉ h.observers.keys) :
    (h.tasks.map Task.key).Nodup := by
  unfold health.tasks
  rw [List.map_append, List.map_map, List.map_map]
  have e1 : (Task.key ∘ fun e : String × timeoutChecker => (⟨e.1, true, e.2⟩ : Task)) =
      Prod.fst := rfl
  have e2 : (Task.key ∘ fun e : String × timeoutChecker => (⟨e.1, false, e.2⟩ : Task)) =
      Prod.fst := rfl
  rw [e1, e2]
  exact List.Nodup.append hc ho (fun k h1 h2 => hdis k h1 h2)

/-- Every order of completion is the order of some schedule. -/
theorem interleave_complete {α : Type} (order xs : List α) (hp : order.Perm xs) :
    ∃ is, interleave is xs = order := by
  induction order generalizing xs with
  | nil =>
    have hx : xs = [] := List.perm_nil.1 hp.symm
    exact ⟨[], by rw [hx]; rfl⟩
  | cons y rest ih =>
    have hy : y ∈ xs := hp.subset (List.mem_cons_self _ _)
    obtain ⟨j, hj, hget⟩ := List.getElem_of_mem hy
    have hsome : xs[j]? = some y := by
      rw [List.getElem?_eq_getElem hj, hget]
    have hrest : rest.Perm (xs.eraseIdx j) :=
      List.Perm.cons_inv (hp.trans (perm_cons_eraseIdx xs j y hsome).symm)
    obtain ⟨is, his⟩ := ih _ hrest
    refine ⟨j :: is, ?_⟩
    unfold interleave
    rw [Nat.mod_eq_of_lt hj, hsome]
    simp only
    rw [his]

/-- Under a timeout greater than zero every check task finishes. -/
theorem tasks_finish_of_timeout (h : health) (ctx : Context) (now : Nat) (sch : Schedule)
    (hpos : 0 < h.timeout) (t : Task) :
    (t.outcome (h.effectiveContext ctx now) now sch).isSome = true := by
  have hd : ∃ d, (h.effectiveContext ctx now).doneAt = some d := by
    unfold health.effectiveContext
    rw [if_pos hpos]
    cases hc : ctx.doneAt with
    | none => exact ⟨now + h.timeout.toNat, by simp [Context.doneAt, hc, earliest]⟩
    | some x => exact ⟨min x (now + h.timeout.toNat), by simp [Context.doneAt, hc, earliest]⟩
  obtain ⟨d, hd⟩ := hd
  rcases timeoutChecker.Check_cases t.checker _ now (sch.task t.fatal t.key) d hd with h1 | h1
  · unfold Task.outcome
    rw [h1]
    rfl
  · unfold Task.outcome
    rw [h1]
    rfl

/-- The maps of a service made by `NewService` from the three options have
pairwise different keys. -/
theorem NewService_keys_nodup (opts : List ServiceOption)
    (hopts : ∀ o ∈ opts, (∃ name c, o = WithChecker name c ∨ o = WithObserver name c) ∨
      ∃ d, o = WithTimeout d) :
    (NewService opts).checkers.keys.Nodup ∧ (NewService opts).observers.keys.Nodup := by
  unfold NewService
  have key : ∀ (os : List ServiceOption) (h : health),
      (∀ o ∈ os, (∃ name c, o = WithChecker name c ∨ o = WithObserver name c) ∨
        ∃ d, o = WithTimeout d) →
      h.checkers.keys.Nodup ∧ h.observers.keys.Nodup →
      (os.foldl (fun h opt => opt h) h).checkers.keys.Nodup ∧
        (os.foldl (fun h opt => opt h) h).observers.keys.Nodup := by
    intro os
    induction os with
    | nil => intro h _ hh; exact hh
    | cons o rest ih =>
      intro h ho hh
      rw [List.foldl_cons]
      apply ih _ (fun x hx => ho x (List.mem_cons_of_mem _ hx))
      rcases ho o (List.mem_cons_self _ _) with ⟨name, c, h1 | h1⟩ | ⟨d, h1⟩
      · rw [h1]
        exact ⟨Entries.keys_set_nodup _ _ _ hh.1, hh.2⟩
      · rw [h1]
        exact ⟨hh.1, Entries.keys_set_nodup _ _ _ hh.2⟩
      · rw [h1]
        exact hh
  exact key opts _ hopts ⟨by simp [Entries.keys], by simp [Entries.keys]⟩

/-! ## Lemmas on the disk space checker -/

/-- Without overflow, and for a filesystem with blocks, the percentage that
`Check` computes in bytes is the percentage in blocks. -/
theorem diskSpace.usedPercentage_eq (fs : Statfs_t) (hb : 0 < fs.Bsize)
    (hfree : fs.Bfree ≤ fs.Blocks) (hblocks : 0 < fs.Blocks)
    (hrange : 100 * (fs.Blocks * fs.Bsize.toNat) < word) :
    diskSpace.total fs ≠ 0 ∧ diskSpace.usedPercentage fs = blockPercentage fs := by
  obtain ⟨bsize, blocks, bfree⟩ := fs
  simp only at hb hfree hblocks hrange
  obtain ⟨b, rfl⟩ := Int.eq_ofNat_of_zero_le (le_of_lt hb)
  have hb' : 0 < b := by exact_mod_cast hb
  simp only [Int.toNat_ofNat] at hrange
  have hT : blocks * b < word := by omega
  have hbw : b < word := by
    have : b ≤ blocks * b := Nat.le_mul_of_pos_left b hblocks
    omega
  have hu : uint64 (b : Int) = b := by
    unfold uint64
    rw [show ((word : Nat) : Int) = (word : Int) from rfl]
    rw [← Int.natCast_mod, Int.toNat_ofNat, Nat.mod_eq_of_lt hbw]
  have hFT : bfree * b ≤ blocks * b := Nat.mul_le_mul_right b hfree
  have htotal : diskSpace.total ⟨b, blocks, bfree⟩ = blocks * b := by
    unfold diskSpace.total
    simp only [hu]
    exact Nat.mod_eq_of_lt hT
  have hfreeb : diskSpace.free ⟨b, blocks, bfree⟩ = bfree * b := by
    unfold diskSpace.free
    simp only [hu]
    exact Nat.mod_eq_of_lt (by omega)
  have hused : diskSpace.used ⟨b, blocks, bfree⟩ = (blocks - bfree) * b := by
    unfold diskSpace.used
    rw [htotal, hfreeb, Nat.sub_mul]
    have : blocks * b + word - bfree * b = (blocks * b - bfree * b) + word := by omega
    rw [this, Nat.add_mod_right]
    exact Nat.mod_eq_of_lt (by omega)
  have hpos : 0 < blocks * b := Nat.mul_pos hblocks hb'
  refine ⟨by rw [htotal]; omega, ?_⟩
  unfold diskSpace.usedPercentage blockPercentage
  rw [htotal, hused]
  simp only
  have hle : (blocks - bfree) * b ≤ blocks * b := Nat.mul_le_mul_right b (Nat.sub_le _ _)
  rw [Nat.mod_eq_of_lt (by omega), ← Nat.mul_assoc]
  exact Nat.mul_div_mul_right _ _ hb'

/-- Without overflow, and for an existing path on a filesystem with blocks,
`Check` fails exactly when the percentage in blocks is above the threshold, and
the message carries that percentage, the threshold and the path. -/
theorem diskSpace.Check_in_range (ds : diskSpace) (osStat : String → Option String)
    (fs : Statfs_t) (hstat : osStat ds.dir = none) (hfs : ds.statfs ds.dir = Except.ok fs)
    (hb : 0 < fs.Bsize) (hfree : fs.Bfree ≤ fs.Blocks) (hblocks : 0 < fs.Blocks)
    (hrange : 100 * (fs.Blocks * fs.Bsize.toNat) < word) :
    ds.Check osStat =
      if blockPercentage fs > ds.threshold then
        CallResult.returned
          (some ("used: " ++ toString (blockPercentage fs) ++ "% threshold: " ++
            toString ds.threshold ++ "% location: " ++ ds.dir))
      else CallResult.returned none := by
  obtain ⟨h0, hp⟩ := diskSpace.usedPercentage_eq fs hb hfree hblocks hrange
  unfold diskSpace.Check
  rw [hstat, hfs]
  simp only [h0, if_false, hp]

/-! ## The claims -/

/-- C1. Whenever every check task finishes, `CheckHealth` returns, and the code it
returns is 503 exactly when some fatal checker (one registered in `checkers`)
returned an error, the timeout error included; otherwise the code is 200, however
many observers have failed. -/
theorem C1_status_iff_fatal_failure (h : health) (ctx : Context) (now : Nat) (sch : Schedule)
    (hall : ∀ t ∈ h.tasks, (t.outcome (h.effectiveContext ctx now) now sch).isSome = true) :
    ∃ code errorMsgs, h.CheckHealth ctx now sch = some (code, errorMsgs) ∧
      (code = 503 ↔
        ∃ t ∈ h.tasks, t.fatal = true ∧
          ∃ msg, t.outcome (h.effectiveContext ctx now) now sch = some (some msg)) ∧
      (code ≠ 503 → code = 200) := by
  obtain ⟨events, hr, hc⟩ := checkWith_of_finished h _ now sch hall
  refine ⟨_, _, hc, ?_, ?_⟩
  · constructor
    · intro h5
      by_contra hn
      rw [collect_code_neg _ now sch h.tasks events hr sch.order hn] at h5
      exact absurd h5 (by decide)
    · intro hp
      rw [collect_code_pos _ now sch h.tasks events hr sch.order hp]
      rfl
  · intro hne
    by_cases hp : ∃ t ∈ h.tasks, t.fatal = true ∧
        ∃ msg, t.outcome (h.effectiveContext ctx now) now sch = some (some msg)
    · rw [collect_code_pos _ now sch h.tasks events hr sch.order hp] at hne
      exact absurd rfl hne
    · rw [collect_code_neg _ now sch h.tasks events hr sch.order hp]
      rfl

/-- C1, at a service whose only failing checker is an observer: the code is 200. -/
theorem C1_status_iff_fatal_failure_witness :
    (∀ t ∈ observedService.tasks,
      (t.outcome (observedService.effectiveContext (Context.caller none) 0) 0
        promptSchedule).isSome = true) ∧
    ∃ code errorMsgs,
      observedService.CheckHealth (Context.caller none) 0 promptSchedule =
        some (code, errorMsgs) ∧
      (code = 503 ↔
        ∃ t ∈ observedService.tasks, t.fatal = true ∧
          ∃ msg, t.outcome (observedService.effectiveContext (Context.caller none) 0) 0
            promptSchedule = some (some msg)) ∧
      (code ≠ 503 → code = 200) :=
  ⟨by decide,
   C1_status_iff_fatal_failure observedService (Context.caller none) 0 promptSchedule
     (by decide)⟩

/-- C2. Whenever every check task finishes, `CheckHealth` returns a map made by
`make` (not the nil map) in which a name has an entry exactly when a checker
registered under that name, fatal or observer, returned an error, the timeout
error included; the value of an entry is the message of such a failed checker,
and it is the message `v` whenever every failed checker of that name failed with
`v`; when no checker fails the map has no entries. -/
theorem C2_error_map_entries (h : health) (ctx : Context) (now : Nat) (sch : Schedule)
    (hall : ∀ t ∈ h.tasks, (t.outcome (h.effectiveContext ctx now) now sch).isSome = true) :
    ∃ code entries, h.CheckHealth ctx now sch = some (code, GoMap.made entries) ∧
      (∀ k, (Entries.get entries k).isSome = true ↔
        ∃ t ∈ h.tasks, t.key = k ∧
          ∃ msg, t.outcome (h.effectiveContext ctx now) now sch = some (some msg)) ∧
      (∀ k v, Entries.get entries k = some v →
        ∃ t ∈ h.tasks, t.key = k ∧
          t.outcome (h.effectiveContext ctx now) now sch = some (some v)) ∧
      (∀ k v,
        (∃ t ∈ h.tasks, t.key = k ∧
          t.outcome (h.effectiveContext ctx now) now sch = some (some v)) →
        (∀ t ∈ h.tasks, t.key = k → ∀ w,
          t.outcome (h.effectiveContext ctx now) now sch = some (some w) → w = v) →
        Entries.get entries k = some v) ∧
      ((∀ t ∈ h.tasks, t.outcome (h.effectiveContext ctx now) now sch = some none) →
        entries = []) := by
  obtain ⟨events, hr, hc⟩ := checkWith_of_finished h _ now sch hall
  have hiff : ∀ k, (Entries.get (collect (interleave sch.order events)).2 k).isSome = true ↔
      ∃ t ∈ h.tasks, t.key = k ∧
        ∃ msg, t.outcome (h.effectiveContext ctx now) now sch = some (some msg) := by
    intro k
    constructor
    · intro hs
      cases hg : Entries.get (collect (interleave sch.order events)).2 k with
      | none => rw [hg] at hs; cases hs
      | some v =>
        obtain ⟨t, ht, hk, ho⟩ := collect_get_some _ now sch h.tasks events hr sch.order k v hg
        exact ⟨t, ht, hk, v, ho⟩
    · rintro ⟨t, ht, hk, msg, ho⟩
      rw [← hk]
      exact collect_get_isSome _ now sch h.tasks events hr sch.order t ht msg ho
  refine ⟨_, _, hc, hiff, ?_, ?_, ?_⟩
  · intro k v hg
    exact collect_get_some _ now sch h.tasks events hr sch.order k v hg
  · rintro k v ⟨t, ht, hk, ho⟩ huniq
    have hs := (hiff k).2 ⟨t, ht, hk, v, ho⟩
    cases hg : Entries.get (collect (interleave sch.order events)).2 k with
    | none => rw [hg] at hs; cases hs
    | some w =>
      obtain ⟨t', ht', hk', ho'⟩ :=
        collect_get_some _ now sch h.tasks events hr sch.order k w hg
      rw [huniq t' ht' hk' w ho']
  · intro hok
    unfold collect
    rw [foldl_record_nil_of_ok]
    intro e he
    have hperm := interleave_perm sch.order events
    obtain ⟨t, ht, _, _, hto⟩ :=
      runAll_mem_event _ now sch h.tasks events hr e (hperm.mem_iff.1 he)
    rw [hok t ht] at hto
    exact (Option.some.inj hto).symm

/-- C2, at the service with two failing fatal checkers and a failing observer. -/
theorem C2_error_map_entries_witness :
    (∀ t ∈ sampleService.tasks,
      (t.outcome (sampleService.effectiveContext (Context.caller none) 0) 0
        promptSchedule).isSome = true) ∧
    ∃ code entries,
      sampleService.CheckHealth (Context.caller none) 0 promptSchedule =
        some (code, GoMap.made entries) ∧
      (∀ k, (Entries.get entries k).isSome = true ↔
        ∃ t ∈ sampleService.tasks, t.key = k ∧
          ∃ msg, t.outcome (sampleService.effectiveContext (Context.caller none) 0) 0
            promptSchedule = some (some msg)) ∧
      (∀ k v, Entries.get entries k = some v →
        ∃ t ∈ sampleService.tasks, t.key = k ∧
          t.outcome (sampleService.effectiveContext (Context.caller none) 0) 0
            promptSchedule = some (some v)) ∧
      (∀ k v,
        (∃ t ∈ sampleService.tasks, t.key = k ∧
          t.outcome (sampleService.effectiveContext (Context.caller none) 0) 0
            promptSchedule = some (some v)) →
        (∀ t ∈ sampleService.tasks, t.key = k → ∀ w,
          t.outcome (sampleService.effectiveContext (Context.caller none) 0) 0
            promptSchedule = some (some w) → w = v) →
        Entries.get entries k = some v) ∧
      ((∀ t ∈ sampleService.tasks,
          t.outcome (sampleService.effectiveContext (Context.caller none) 0) 0
            promptSchedule = some none) →
        entries = []) :=
  ⟨by decide,
   C2_error_map_entries sampleService (Context.caller none) 0 promptSchedule (by decide)⟩

/-- C3 (as stated) fails.  The context is done at instant 1 and the wrapped
checker has its result (nil) at instant 10, after the deadline; the wrapper
evaluates its `select` at instant 20, when both cases can proceed, and the
runtime takes the channel case: `Check` returns nil, and `CheckHealth` of the
service with this one fatal checker returns 200 with an empty map. -/
theorem C3_counterexample :
    (Context.withTimeout (Context.caller none) 0 1).doneAt = some 1 ∧
    (timeoutChecker.mk (sleeping 10 none)).sendAt
      (Context.withTimeout (Context.caller none) 0 1) 0 ⟨0, 20, true⟩ = some 10 ∧
    (timeoutChecker.mk (sleeping 10 none)).Check
      (Context.withTimeout (Context.caller none) 0 1) 0 ⟨0, 20, true⟩ = some none ∧
    (NewService [WithTimeout 1, WithChecker "database" (sleeping 10 none)]).CheckHealth
      (Context.caller none) 0 (lateSelect 20 true) = some (200, GoMap.made []) := by
  decide

/-- C3 (amended). When the context handed to the wrapper is done at `d`, the
wrapped checker has no result before or at `d`, and the wrapper evaluates its
`select` before that result is there, `Check` returns the error with message
"max check time exceeded", whatever the wrapped checker returns; a service whose
only checker is this one, registered as fatal, returns 503 and the map with the
single entry from its name to that message. -/
theorem C3_timeout_message (t : timeoutChecker) (ctx : Context) (t0 : Nat) (s : Sched) (d : Nat)
    (hd : ctx.doneAt = some d)
    (hlate : ∀ c, t.sendAt ctx t0 s = some c → d < c ∧ t0 + s.selectDelay < c) :
    t.Check ctx t0 s = some (some "max check time exceeded") ∧
    ∀ (h : health) (name : String) (caller : Context) (sch : Schedule),
      h.checkers = [(name, t)] → h.observers = [] →
      h.effectiveContext caller t0 = ctx → sch.task true name = s →
      h.CheckHealth caller t0 sch =
        some (503, GoMap.made [(name, "max check time exceeded")]) := by
  have hcheck := timeoutChecker.Check_timeout t ctx t0 s d hd hlate
  refine ⟨hcheck, ?_⟩
  intro h name caller sch hc ho hctx hs
  unfold health.CheckHealth
  rw [hctx]
  rw [← hs] at hcheck
  rw [checkWith_single_fatal h name t ctx t0 sch _ hc ho hcheck]
  rfl

/-- C3 (amended), at a checker that sleeps 10 under a timeout of 1, with a
`select` that is evaluated at once. -/
theorem C3_timeout_message_witness :
    (Context.withTimeout (Context.caller none) 0 1).doneAt = some 1 ∧
    (timeoutChecker.mk (sleeping 10 none)).Check
      (Context.withTimeout (Context.caller none) 0 1) 0 ⟨0, 0, true⟩ =
        some (some "max check time exceeded") ∧
    (NewService [WithTimeout 1, WithChecker "database" (sleeping 10 none)]).CheckHealth
      (Context.caller none) 0 promptSchedule =
        some (503, GoMap.made [("database", "max check time exceeded")]) :=
  have hw := C3_timeout_message (timeoutChecker.mk (sleeping 10 none))
    (Context.withTimeout (Context.caller none) 0 1) 0 ⟨0, 0, true⟩ 1 (by decide) (by decide)
  ⟨by decide, hw.1,
   hw.2 (NewService [WithTimeout 1, WithChecker "database" (sleeping 10 none)]) "database"
     (Context.caller none) promptSchedule (by rfl) (by rfl) (by decide) (by rfl)⟩

/-- C4 (as stated) fails.  The wrapped checker has its result, the error
"connection refused", at instant 0 and the context is done later, at instant 5;
the wrapper evaluates its `select` at instant 10, when both cases can proceed,
and the runtime takes the `Done` case: `Check` returns the timeout error in
place of the error of the checker. -/
theorem C4_counterexample :
    (timeoutChecker.mk (returning (some "connection refused"))).sendAt
      (Context.caller (some 5)) 0 ⟨0, 10, false⟩ = some 0 ∧
    (Context.caller (some 5)).doneAt = some 5 ∧
    (returning (some "connection refused") (Context.caller (some 5))).result =
      some "connection refused" ∧
    (timeoutChecker.mk (returning (some "connection refused"))).Check
      (Context.caller (some 5)) 0 ⟨0, 10, false⟩ = some (some "max check time exceeded") := by
  decide

/-- C4 (amended). When the wrapped checker has its result at `c`, the context is
not done before or at `c`, and the wrapper evaluates its `select` before the
context is done, `Check` returns the outcome of the wrapped checker unchanged:
nil for nil, the same error for an error. -/
theorem C4_result_verbatim (t : timeoutChecker) (ctx : Context) (t0 : Nat) (s : Sched) (c : Nat)
    (hc : t.sendAt ctx t0 s = some c)
    (hfirst : ∀ d, ctx.doneAt = some d → c < d ∧ t0 + s.selectDelay < d) :
    t.Check ctx t0 s = some (t.checker ctx).result := by
  unfold timeoutChecker.Check
  rw [select2_chan _ _ _ _ c hc hfirst]

/-- C4 (amended), at a checker that fails at once under a deadline at instant 5. -/
theorem C4_result_verbatim_witness :
    (timeoutChecker.mk (returning (some "connection refused"))).sendAt
      (Context.caller (some 5)) 0 ⟨0, 2, false⟩ = some 0 ∧
    (timeoutChecker.mk (returning (some "connection refused"))).Check
      (Context.caller (some 5)) 0 ⟨0, 2, false⟩ = some (some "connection refused") :=
  ⟨by decide,
   C4_result_verbatim (timeoutChecker.mk (returning (some "connection refused")))
     (Context.caller (some 5)) 0 ⟨0, 2, false⟩ 0 (by decide) (by decide)⟩

/-- C5 (as stated) fails.  The caller's context is done at instant 0 and
`CheckHealth` is called at instant 1 on a service with one fatal checker that
returns nil at once.  The wrapper evaluates its `select` one nanosecond after
the call, when the result is there as well, and the runtime takes the channel
case: the task resolves to nil, the name has no entry and the code is 200. -/
theorem C5_counterexample :
    (Context.caller (some 0)).doneAt = some 0 ∧
    (NewService [WithChecker "database" (returning none)]).checkers.keys = ["database"] ∧
    (NewService [WithChecker "database" (returning none)]).CheckHealth
      (Context.caller (some 0)) 1 (lateSelect 1 true) = some (200, GoMap.made []) := by
  decide

/-- C5 (amended). When the caller's context is done at or before the instant of
the call, `CheckHealth` returns, and every check task resolves to the timeout
error or to the outcome of its wrapped checker.  A task whose wrapped checker
has no result yet when the wrapper evaluates its `select` resolves to the
timeout error; when this holds for every task, every registered name is mapped
to "max check time exceeded" and the code is 503 whenever a fatal checker is
registered. -/
theorem C5_canceled_context (h : health) (ctx : Context) (now : Nat) (sch : Schedule) (d : Nat)
    (hd : ctx.doneAt = some d) (hle : d ≤ now) :
    ∃ code entries, h.CheckHealth ctx now sch = some (code, GoMap.made entries) ∧
      (∀ t ∈ h.tasks,
        t.outcome (h.effectiveContext ctx now) now sch = some (some "max check time exceeded") ∨
        t.outcome (h.effectiveContext ctx now) now sch =
          some (t.checker.checker (h.effectiveContext ctx now)).result) ∧
      ((∀ t ∈ h.tasks, ∀ c,
          t.checker.sendAt (h.effectiveContext ctx now) now (sch.task t.fatal t.key) = some c →
          now + (sch.task t.fatal t.key).selectDelay < c) →
        (∀ t ∈ h.tasks,
          t.outcome (h.effectiveContext ctx now) now sch =
            some (some "max check time exceeded")) ∧
        (∀ t ∈ h.tasks, Entries.get entries t.key = some "max check time exceeded") ∧
        (h.checkers ≠ [] → code = 503)) := by
  obtain ⟨d', hd', hle'⟩ := effectiveContext_doneAt h ctx now d hd
  have hcases : ∀ t ∈ h.tasks,
      t.outcome (h.effectiveContext ctx now) now sch = some (some timeoutMsg) ∨
      t.outcome (h.effectiveContext ctx now) now sch =
        some (t.checker.checker (h.effectiveContext ctx now)).result := by
    intro t _
    exact timeoutChecker.Check_cases t.checker _ now _ d' hd'
  have hall : ∀ t ∈ h.tasks,
      (t.outcome (h.effectiveContext ctx now) now sch).isSome = true := by
    intro t ht
    rcases hcases t ht with h1 | h1 <;> rw [h1] <;> rfl
  obtain ⟨events, hr, hc⟩ := checkWith_of_finished h _ now sch hall
  refine ⟨_, _, hc, hcases, ?_⟩
  intro hnot
  have htime : ∀ t ∈ h.tasks,
      t.outcome (h.effectiveContext ctx now) now sch = some (some timeoutMsg) := by
    intro t ht
    apply timeoutChecker.Check_timeout t.checker _ now _ d' hd'
    intro c hc'
    have := hnot t ht c hc'
    omega
  refine ⟨htime, ?_, ?_⟩
  · intro t ht
    have hs := collect_get_isSome _ now sch h.tasks events hr sch.order t ht _ (htime t ht)
    cases hg : Entries.get (collect (interleave sch.order events)).2 t.key with
    | none => rw [hg] at hs; cases hs
    | some v =>
      obtain ⟨t', ht', _, ho'⟩ :=
        collect_get_some _ now sch h.tasks events hr sch.order t.key v hg
      rw [htime t' ht'] at ho'
      rw [← Option.some.inj (Option.some.inj ho')]
      rfl
  · intro hne
    apply collect_code_pos _ now sch h.tasks events hr sch.order
    cases hcs : h.checkers with
    | nil => exact absurd hcs hne
    | cons e rest =>
      have hmem : (⟨e.1, true, e.2⟩ : Task) ∈ h.tasks := by
        unfold health.tasks
        rw [hcs]
        simp
      exact ⟨_, hmem, rfl, timeoutMsg, htime _ hmem⟩

/-- C5 (amended), at the sample service with checkers that sleep and a context
that was done before the call. -/
theorem C5_canceled_context_witness :
    (Context.caller (some 0)).doneAt = some 0 ∧
    ∃ code entries,
      (NewService [WithChecker "database" (sleeping 5 none),
        WithObserver "cache" hanging]).CheckHealth
          (Context.caller (some 0)) 1 (lateSelect 1 true) = some (code, GoMap.made entries) ∧
      Entries.get entries "database" = some "max check time exceeded" ∧
      Entries.get entries "cache" = some "max check time exceeded" ∧
      code = 503 := by
  obtain ⟨code, entries, hc, _, h3⟩ :=
    C5_canceled_context
      (NewService [WithChecker "database" (sleeping 5 none), WithObserver "cache" hanging])
      (Context.caller (some 0)) 1 (lateSelect 1 true) 0 (by decide) (by decide)
  obtain ⟨_, hget, hcode⟩ := h3 (by decide)
  exact ⟨by decide, code, entries, hc,
    hget ⟨"database", true, ⟨sleeping 5 none⟩⟩ (by simp [NewService, WithChecker, WithObserver,
      health.tasks, Entries.set]),
    hget ⟨"cache", false, ⟨hanging⟩⟩ (by simp [NewService, WithChecker, WithObserver,
      health.tasks, Entries.set]),
    hcode (by simp [NewService, WithChecker, WithObserver, Entries.set])⟩

/-- C6 (as stated) fails.  A service made by `NewService` without `WithTimeout`
has the timeout of 30 seconds, not zero: the context handed to the checkers is a
child of the caller's context with a deadline 30 seconds after the call, and a
checker that never returns under a caller's context that is never done is cut
off with the timeout error. -/
theorem C6_counterexample :
    (NewService []).timeout = 30000000000 ∧
    (NewService []).effectiveContext (Context.caller none) 0 ≠ Context.caller none ∧
    (Context.caller none).doneAt = none ∧
    ((NewService []).effectiveContext (Context.caller none) 0).doneAt = some 30000000000 ∧
    (NewService [WithChecker "database" hanging]).CheckHealth (Context.caller none) 0
      promptSchedule = some (503, GoMap.made [("database", "max check time exceeded")]) := by
  decide

/-- C6 (amended). A service whose timeout is zero or negative hands the caller's
context to every checker unchanged; a service whose timeout is greater than zero
hands them a child context bounded by that timeout, which is not the caller's
context; and a service made by `NewService` from options that only register
checkers and observers has the timeout of 30 seconds, so it is bounded. -/
theorem C6_effective_context (h : health) (ctx : Context) (now : Nat) :
    (h.timeout ≤ 0 →
      h.effectiveContext ctx now = ctx ∧
      ∀ sch, h.CheckHealth ctx now sch = h.checkWith ctx now sch) ∧
    (0 < h.timeout →
      h.effectiveContext ctx now = Context.withTimeout ctx now h.timeout ∧
      h.effectiveContext ctx now ≠ ctx ∧
      ∀ sch, h.CheckHealth ctx now sch =
        h.checkWith (Context.withTimeout ctx now h.timeout) now sch) ∧
    (∀ opts : List ServiceOption,
      (∀ o ∈ opts, ∃ name c, o = WithChecker name c ∨ o = WithObserver name c) →
      (NewService opts).timeout = 30 * Second ∧
      (NewService opts).effectiveContext ctx now =
        Context.withTimeout ctx now (30 * Second)) := by
  refine ⟨?_, ?_, ?_⟩
  · intro hz
    have he : h.effectiveContext ctx now = ctx := by
      unfold health.effectiveContext
      rw [if_neg (by omega)]
    refine ⟨he, ?_⟩
    intro sch
    unfold health.CheckHealth
    rw [he]
  · intro hp
    have he : h.effectiveContext ctx now = Context.withTimeout ctx now h.timeout := by
      unfold health.effectiveContext
      rw [if_pos hp]
    refine ⟨he, ?_, ?_⟩
    · rw [he]
      exact Context.withTimeout_ne ctx now h.timeout
    · intro sch
      unfold health.CheckHealth
      rw [he]
  · intro opts hopts
    have ht : (NewService opts).timeout = 30 * Second := by
      unfold NewService
      rw [foldl_timeout_unchanged opts _ hopts]
    refine ⟨ht, ?_⟩
    unfold health.effectiveContext
    rw [ht, if_pos (by decide)]

/-- C6 (amended), at a service with `WithTimeout(0)` and a checker that never
returns: the caller's context is handed on, and the call never returns. -/
theorem C6_effective_context_witness :
    (NewService [WithTimeout 0, WithChecker "database" hanging]).timeout ≤ 0 ∧
    (NewService [WithTimeout 0, WithChecker "database" hanging]).effectiveContext
      (Context.caller none) 0 = Context.caller none ∧
    (NewService [WithTimeout 0, WithChecker "database" hanging]).CheckHealth
      (Context.caller none) 0 promptSchedule = none :=
  have hw := (C6_effective_context
    (NewService [WithTimeout 0, WithChecker "database" hanging]) (Context.caller none) 0).1
    (by decide)
  ⟨by decide, hw.1, (hw.2 promptSchedule).trans (by decide)⟩

/-- C7 (the code at the failing input). A filesystem of 2^46 blocks of 4096
bytes with no free block is 100 percent used by the formula in blocks, above the
threshold 90; in `Check` the product `100 * used` exceeds 64 bits and wraps
around, `usedPercentage` is 36, and `Check` returns nil. -/
theorem C7_overflow_misses_full_disk :
    blockPercentage ⟨4096, 2 ^ 46, 0⟩ = 100 ∧
    diskSpace.usedPercentage ⟨4096, 2 ^ 46, 0⟩ = 36 ∧
    (DiskSpace (fun _ => Except.ok ⟨4096, 2 ^ 46, 0⟩) "/data" 90).Check (fun _ => none) =
      CallResult.returned none := by
  decide

/-- C8 (the code at the failing input). When `statfs` succeeds and reports zero
blocks, `total` is zero and the division that computes `usedPercentage`
panics. -/
theorem C8_zero_blocks_panics :
    (DiskSpace (fun _ => Except.ok ⟨4096, 0, 0⟩) "/proc" 90).Check (fun _ => none) =
      CallResult.panicked "runtime error: integer divide by zero" ∧
    (DiskSpace (fun _ => Except.ok ⟨0, 1000, 10⟩) "/data" 90).Check (fun _ => none) =
      CallResult.panicked "runtime error: integer divide by zero" := by
  decide

/-- C9. Whenever every check task finishes, the handler returns; the status
code it has written is the code returned by `CheckHealth`, which is 200 or 503;
the body has the member "status" with the text of that code ("OK" for 200,
"Service Unavailable" for 503); and the body has the member "errors" exactly
when the map returned by `CheckHealth` is not empty, in which case the member is
the object with the entries of that map.  `HandlerFunc` is the same function. -/
theorem C9_handler_response (h : health) (ctx : Context) (now : Nat) (sch : Schedule)
    (hall : ∀ t ∈ h.tasks, (t.outcome (h.effectiveContext ctx now) now sch).isSome = true) :
    ∃ code entries rec,
      h.CheckHealth ctx now sch = some (code, GoMap.made entries) ∧
      h.ServeHTTP ctx now sch = some rec ∧
      h.HandlerFunc ctx now sch = some rec ∧
      rec.code = code ∧
      (code = 200 ∧ StatusText code = "OK" ∨
        code = 503 ∧ StatusText code = "Service Unavailable") ∧
      Entries.get rec.body "status" = some (JsonValue.string (StatusText code)) ∧
      (Entries.get rec.body "errors" = none ↔ (GoMap.made entries).len = 0) ∧
      ((GoMap.made entries).len ≠ 0 →
        Entries.get rec.body "errors" = some (JsonValue.object entries)) := by
  obtain ⟨events, hr, hc⟩ := checkWith_of_finished h _ now sch hall
  have hcode : (collect (interleave sch.order events)).1 = 200 ∨
      (collect (interleave sch.order events)).1 = 503 := by
    by_cases hp : ∃ t ∈ h.tasks, t.fatal = true ∧
        ∃ msg, t.outcome (h.effectiveContext ctx now) now sch = some (some msg)
    · exact Or.inr (collect_code_pos _ now sch h.tasks events hr sch.order hp)
    · exact Or.inl (collect_code_neg _ now sch h.tasks events hr sch.order hp)
  have hch : h.CheckHealth ctx now sch =
      some ((collect (interleave sch.order events)).1,
        GoMap.made (collect (interleave sch.order events)).2) := hc
  have hserve : h.ServeHTTP ctx now sch =
      some { header := Entries.set [] "Content-Type" "application/json; charset=utf-8"
             code := (collect (interleave sch.order events)).1
             body := response.encode
               { Status := StatusText (collect (interleave sch.order events)).1
                 Errors := GoMap.made (collect (interleave sch.order events)).2 } } := by
    unfold health.ServeHTTP
    rw [hch]
  refine ⟨_, _, _, hch, hserve, hserve, rfl, ?_, ?_, ?_, ?_⟩
  · rcases hcode with h2 | h5
    · exact Or.inl ⟨h2, by rw [h2]; decide⟩
    · exact Or.inr ⟨h5, by rw [h5]; decide⟩
  · rcases hcode with h2 | h5
    · rw [h2]
      cases (collect (interleave sch.order events)).2 <;>
        simp [response.encode, StatusText, Entries.get]
    · rw [h5]
      cases (collect (interleave sch.order events)).2 <;>
        simp [response.encode, StatusText, Entries.get]
  · rcases hcode with h2 | h5
    · rw [h2]
      cases (collect (interleave sch.order events)).2 <;>
        simp [response.encode, StatusText, Entries.get, GoMap.len]
    · rw [h5]
      cases (collect (interleave sch.order events)).2 <;>
        simp [response.encode, StatusText, Entries.get, GoMap.len]
  · rcases hcode with h2 | h5
    · rw [h2]
      cases (collect (interleave sch.order events)).2 <;>
        simp [response.encode, StatusText, Entries.get, GoMap.len]
    · rw [h5]
      cases (collect (interleave sch.order events)).2 <;>
        simp [response.encode, StatusText, Entries.get, GoMap.len]

/-- C9, at the service with two failing fatal checkers and a failing observer. -/
theorem C9_handler_response_witness :
    (∀ t ∈ sampleService.tasks,
      (t.outcome (sampleService.effectiveContext (Context.caller none) 0) 0
        promptSchedule).isSome = true) ∧
    ∃ code entries rec,
      sampleService.CheckHealth (Context.caller none) 0 promptSchedule =
        some (code, GoMap.made entries) ∧
      sampleService.ServeHTTP (Context.caller none) 0 promptSchedule = some rec ∧
      sampleService.HandlerFunc (Context.caller none) 0 promptSchedule = some rec ∧
      rec.code = code ∧
      (code = 200 ∧ StatusText code = "OK" ∨
        code = 503 ∧ StatusText code = "Service Unavailable") ∧
      Entries.get rec.body "status" = some (JsonValue.string (StatusText code)) ∧
      (Entries.get rec.body "errors" = none ↔ (GoMap.made entries).len = 0) ∧
      ((GoMap.made entries).len ≠ 0 →
        Entries.get rec.body "errors" = some (JsonValue.object entries)) :=
  ⟨by decide,
   C9_handler_response sampleService (Context.caller none) 0 promptSchedule (by decide)⟩

/-- C10. Every order in which the tasks can finish is the order of some
schedule.  For a fixed scheduling of the single tasks, hence fixed outcomes of
the checkers, and any two orders `o₁` and `o₂` in which the tasks finish and write:
the call returns for both orders or for neither, and the code is the same; when
the keys of each bucket are pairwise different (as in every Go map) and no name
is both a fatal checker and an observer, the two maps have the same entries.
The task that writes last under a name determines the entry of that name: the
service in which `database` is in both buckets with different messages returns
the code 503 and a different entry for the two orders of its two tasks. -/
theorem C10_completion_order :
    (∀ (events order : List Event), order.Perm events →
      ∃ is, interleave is events = order) ∧
    (∀ (h : health) (ctx : Context) (now : Nat) (task : Bool → String → Sched)
        (o₁ o₂ : List Nat),
      (h.CheckHealth ctx now ⟨task, o₁⟩).map Prod.fst =
        (h.CheckHealth ctx now ⟨task, o₂⟩).map Prod.fst) ∧
    (∀ (h : health) (ctx : Context) (now : Nat) (task : Bool → String → Sched)
        (o₁ o₂ : List Nat),
      h.checkers.keys.Nodup → h.observers.keys.Nodup →
      (∀ k ∈ h.checkers.keys, k ∉ h.observers.keys) →
      (h.CheckHealth ctx now ⟨task, o₁⟩ = none ∧ h.CheckHealth ctx now ⟨task, o₂⟩ = none) ∨
      ∃ code e₁ e₂,
        h.CheckHealth ctx now ⟨task, o₁⟩ = some (code, GoMap.made e₁) ∧
        h.CheckHealth ctx now ⟨task, o₂⟩ = some (code, GoMap.made e₂) ∧
        (∀ k, Entries.get e₁ k = Entries.get e₂ k) ∧
        e₁.Perm e₂) ∧
    (∀ (events : List Event) (e : Event) (msg : String), e.err = some msg →
      Entries.get (collect (events ++ [e])).2 e.key = some msg) ∧
    clashService.CheckHealth (Context.caller none) 0 promptSchedule =
      some (503, GoMap.made [("database", "replica lagging")]) ∧
    clashService.CheckHealth (Context.caller none) 0 swappedSchedule =
      some (503, GoMap.made [("database", "connection refused")]) := by
  refine ⟨fun events order hp => interleave_complete order events hp, ?_, ?_,
    collect_last_writer, by decide, by decide⟩
  · intro h ctx now task o₁ o₂
    unfold health.CheckHealth health.checkWith health.run
    rw [runAll_order _ now task o₁ o₂]
    cases runAll (h.effectiveContext ctx now) now ⟨task, o₂⟩ h.tasks with
    | none => rfl
    | some events =>
      simp only [Option.map_some']
      rw [collect_fst_perm _ _
        ((interleave_perm o₁ events).trans (interleave_perm o₂ events).symm)]
  · intro h ctx now task o₁ o₂ hc ho hdis
    unfold health.CheckHealth health.checkWith health.run
    rw [runAll_order _ now task o₁ o₂]
    cases hr : runAll (h.effectiveContext ctx now) now ⟨task, o₂⟩ h.tasks with
    | none => exact Or.inl ⟨rfl, rfl⟩
    | some events =>
      right
      have hkeys : (events.map Event.key).Nodup := by
        rw [runAll_keys _ now _ h.tasks events hr]
        exact tasks_keys_nodup h hc ho hdis
      have hp₁ := interleave_perm o₁ events
      have hp₂ := interleave_perm o₂ events
      have hn₁ : ((interleave o₁ events).map Event.key).Nodup :=
        (hp₁.map Event.key).nodup_iff.2 hkeys
      obtain ⟨hcode, hget, hperm⟩ :=
        collect_perm_of_nodup _ _ (hp₁.trans hp₂.symm) hn₁
      refine ⟨(collect (interleave o₂ events)).1, _, _, ?_, rfl, hget, hperm⟩
      simp only [hcode]

/-- C10, at the sample service, whose names are pairwise different, for the
order of launch and the order in which the second task finishes first. -/
theorem C10_completion_order_witness :
    sampleService.checkers.keys.Nodup ∧ sampleService.observers.keys.Nodup ∧
    (∀ k ∈ sampleService.checkers.keys, k ∉ sampleService.observers.keys) ∧
    ((sampleService.CheckHealth (Context.caller none) 0 ⟨promptSchedule.task, []⟩ = none ∧
        sampleService.CheckHealth (Context.caller none) 0 ⟨promptSchedule.task, [1]⟩ = none) ∨
      ∃ code e₁ e₂,
        sampleService.CheckHealth (Context.caller none) 0 ⟨promptSchedule.task, []⟩ =
          some (code, GoMap.made e₁) ∧
        sampleService.CheckHealth (Context.caller none) 0 ⟨promptSchedule.task, [1]⟩ =
          some (code, GoMap.made e₂) ∧
        (∀ k, Entries.get e₁ k = Entries.get e₂ k) ∧
        e₁.Perm e₂) :=
  ⟨by decide, by decide, by decide,
   C10_completion_order.2.2.1 sampleService (Context.caller none) 0 promptSchedule.task [] [1]
     (by decide) (by decide) (by decide)⟩

end healthcheck
